import Mathlib

/-!
Shallow embedding of `create_files_json.py`: a script that lists files
tracked by git, classifies each as binary or text, reads its content
(base64 for binary, UTF-8 with replacement for text), and serializes
the resulting records as an indented JSON array.

The filesystem is modelled as a snapshot: an existence predicate
(`os.path.exists`) plus an open/read function that either yields the
file's bytes or fails with an error message (a raised `OSError`'s text).
Bytes are natural numbers; well-formed file contents have every byte
below 256.
-/

/-- A snapshot of the filesystem as the script observes it:
`exists_ p` models `os.path.exists(p)`, and `open_ p` models opening
and reading `p` in binary mode, returning the raw bytes on success or
the exception message on failure. -/
structure FS where
  exists_ : String → Bool
  open_ : String → Except String (List Nat)

/-- Outcome of `subprocess.run(["git", "ls-files"], ...)`: either the
call itself raised (e.g. the executable or working directory is
missing), or the process completed with an exit status and captured
standard output. -/
inductive SubprocessOutcome where
  | raised (msg : String)
  | completed (returncode : Int) (stdout : String)

/-- `get_git_files` from the source: on exit status 0, split captured
stdout on newlines, strip each line and drop blank lines; on nonzero
exit status return the empty list.  The source wraps the subprocess
call in no try/except, so a raised exception propagates, which the
embedding renders as `Except.error`. -/
def get_git_files (r : SubprocessOutcome) : Except String (List String) :=
  match r with
  | .raised msg => .error msg
  | .completed rc out =>
    if rc = 0 then
      .ok (((out.splitOn "\n").map (fun f => f.trim)).filter (fun f => f ≠ ""))
    else
      .ok []

/-- `is_binary_file` from the source: read up to 1024 bytes and report
whether a null byte occurs in that window; if the open raises, report
binary. -/
def is_binary_file (fs : FS) (filepath : String) : Bool :=
  match fs.open_ filepath with
  | .error _ => true
  | .ok bytes => (bytes.take 1024).contains 0

/-- The standard base64 alphabet, as in `base64.b64encode`. -/
def b64Alphabet : List Char :=
  "ABCDEFGHIJKLMNOPQRSTUVWXYZabcdefghijklmnopqrstuvwxyz0123456789+/".toList

/-- The base64 character for a 6-bit value. -/
def b64Char (v : Nat) : Char := b64Alphabet.getD v 'A'

/-- The 6-bit value of a base64 character, if it is in the alphabet. -/
def b64CharVal (c : Char) : Option Nat := b64Alphabet.indexOf? c

/-- `base64.b64encode` on a byte list: three input bytes become four
alphabet characters, with `=` padding for a trailing group of one or
two bytes. -/
def b64encode : List Nat → List Char
  | [] => []
  | [a] => [b64Char (a / 4), b64Char ((a % 4) * 16), '=', '=']
  | [a, b] => [b64Char (a / 4), b64Char ((a % 4) * 16 + b / 16),
               b64Char ((b % 16) * 4), '=']
  | a :: b :: c :: rest =>
    b64Char (a / 4) :: b64Char ((a % 4) * 16 + b / 16) ::
    b64Char ((b % 16) * 4 + c / 64) :: b64Char (c % 64) :: b64encode rest

/-- Standard base64 decoding on a character list: four characters yield
three bytes; a final group padded with `=` yields one or two. -/
def b64decode : List Char → Option (List Nat)
  | [] => some []
  | c1 :: c2 :: c3 :: c4 :: rest =>
    match b64CharVal c1, b64CharVal c2 with
    | some v1, some v2 =>
      if c3 = '=' then
        if c4 = '=' ∧ rest = [] then some [v1 * 4 + v2 / 16] else none
      else
        match b64CharVal c3 with
        | some v3 =>
          if c4 = '=' then
            if rest = [] then
              some [v1 * 4 + v2 / 16, (v2 % 16) * 16 + v3 / 4]
            else none
          else
            match b64CharVal c4, b64decode rest with
            | some v4, some bs =>
              some ((v1 * 4 + v2 / 16) :: ((v2 % 16) * 16 + v3 / 4) ::
                    ((v3 % 4) * 64 + v4) :: bs)
            | _, _ => none
        | none => none
    | _, _ => none
  | _ => none

/-- The Unicode replacement character U+FFFD used by `errors="replace"`. -/
def replChar : Char := Char.ofNat 0xFFFD

/-- Whether `b2` is acceptable as the byte following lead byte `b` of a
multi-byte UTF-8 sequence: the usual continuation range `80..BF`,
narrowed after the leads `E0`, `ED`, `F0` and `F4` to exclude overlong
encodings, surrogates, and code points above U+10FFFF. -/
def utf8SecondOk (b b2 : Nat) : Bool :=
  if b = 0xE0 then 0xA0 ≤ b2 ∧ b2 < 0xC0
  else if b = 0xED then 0x80 ≤ b2 ∧ b2 < 0xA0
  else if b = 0xF0 then 0x90 ≤ b2 ∧ b2 < 0xC0
  else if b = 0xF4 then 0x80 ≤ b2 ∧ b2 < 0x90
  else 0x80 ≤ b2 ∧ b2 < 0xC0

/-- One step of CPython's strict UTF-8 decoder with
`errors="replace"`: given the first byte `b` and the remaining bytes,
produce the decoded character (U+FFFD for a maximal invalid subpart)
and how many bytes beyond `b` the step consumed. -/
def utf8Step (b : Nat) (rest : List Nat) : Char × Nat :=
  if b < 0x80 then (Char.ofNat b, 0)
  else if b < 0xC2 then (replChar, 0)
  else if b < 0xE0 then
    match rest with
    | [] => (replChar, 0)
    | b2 :: _ =>
      if 0x80 ≤ b2 ∧ b2 < 0xC0 then
        (Char.ofNat ((b % 0x20) * 64 + b2 % 64), 1)
      else (replChar, 0)
  else if b < 0xF0 then
    match rest with
    | [] => (replChar, 0)
    | b2 :: rest2 =>
      if utf8SecondOk b b2 then
        match rest2 with
        | [] => (replChar, 1)
        | b3 :: _ =>
          if 0x80 ≤ b3 ∧ b3 < 0xC0 then
            (Char.ofNat ((b % 0x10) * 4096 + (b2 % 64) * 64 + b3 % 64), 2)
          else (replChar, 1)
      else (replChar, 0)
  else if b < 0xF5 then
    match rest with
    | [] => (replChar, 0)
    | b2 :: rest2 =>
      if utf8SecondOk b b2 then
        match rest2 with
        | [] => (replChar, 1)
        | b3 :: rest3 =>
          if 0x80 ≤ b3 ∧ b3 < 0xC0 then
            match rest3 with
            | [] => (replChar, 2)
            | b4 :: _ =>
              if 0x80 ≤ b4 ∧ b4 < 0xC0 then
                (Char.ofNat ((b % 8) * 262144 + (b2 % 64) * 4096 +
                    (b3 % 64) * 64 + b4 % 64), 3)
              else (replChar, 2)
          else (replChar, 1)
      else (replChar, 0)
  else (replChar, 0)

/-- Fuelled decoding loop: one `utf8Step` per iteration, consuming the
bytes the step accounts for.  The fuel only bounds the number of
iterations; it is immaterial as soon as it is at least the number of
bytes, since every step consumes at least one byte. -/
def decodeUtf8ReplaceAux : Nat → List Nat → List Char
  | 0, _ => []
  | _, [] => []
  | fuel + 1, b :: rest =>
    (utf8Step b rest).1 ::
      decodeUtf8ReplaceAux fuel (rest.drop (utf8Step b rest).2)

/-- UTF-8 decoding with `errors="replace"`, as CPython performs it:
ASCII bytes pass through, well-formed multi-byte sequences decode to
their code point, and each maximal invalid subpart is replaced by one
U+FFFD. -/
def decodeUtf8Replace (l : List Nat) : List Char :=
  decodeUtf8ReplaceAux l.length l

/-- Universal-newline translation performed by Python's text-mode
`open` with the default `newline=None`: on read, `"\r\n"` and a lone
`"\r"` both become `"\n"`. -/
def universalNewlines : List Char → List Char
  | [] => []
  | [c] => [if c = '\r' then '\n' else c]
  | c :: c2 :: rest =>
    if c = '\r' then
      if c2 = '\n' then '\n' :: universalNewlines rest
      else '\n' :: universalNewlines (c2 :: rest)
    else c :: universalNewlines (c2 :: rest)

/-- `read_file_content` from the source: a binary-classified file is
re-read as bytes and returned as the marker line plus its base64
encoding; a text-classified file is read in text mode (UTF-8,
`errors="replace"`, universal newlines); any exception raised while
reading is caught and rendered as the error placeholder string. -/
def read_file_content (fs : FS) (filepath : String) : String :=
  if is_binary_file fs filepath then
    match fs.open_ filepath with
    | .error e => "[ERROR READING FILE: " ++ e ++ "]"
    | .ok bytes =>
      "[BINARY FILE - BASE64 ENCODED]\n" ++ String.mk (b64encode bytes)
  else
    match fs.open_ filepath with
    | .error e => "[ERROR READING FILE: " ++ e ++ "]"
    | .ok bytes =>
      String.mk (universalNewlines (decodeUtf8Replace bytes))

/-- A `{path, content}` record of the output array. -/
structure FileRecord where
  path : String
  content : String
deriving DecidableEq, Repr

/-- The record-building loop of `main`: for each enumerated path, if it
exists on disk, append a record with its content; otherwise emit
nothing for it. -/
def processFiles (fs : FS) : List String → List FileRecord
  | [] => []
  | p :: rest =>
    if fs.exists_ p then
      { path := p, content := read_file_content fs p } :: processFiles fs rest
    else
      processFiles fs rest

/-- The `"[i/N] Added: path"` progress line of `main`. -/
def addedMsg (i n : Nat) (p : String) : String :=
  "[" ++ toString i ++ "/" ++ toString n ++ "] Added: " ++ p

/-- The `"[i/N] Skipped (not found): path"` progress line of `main`. -/
def skipMsg (i n : Nat) (p : String) : String :=
  "[" ++ toString i ++ "/" ++ toString n ++ "] Skipped (not found): " ++ p

/-- The per-file console lines of `main`, with 1-based display index
`i` out of `n` total enumerated paths. -/
def processLogs (fs : FS) (n : Nat) : Nat → List String → List String
  | _, [] => []
  | i, p :: rest =>
    (if fs.exists_ p then addedMsg i n p else skipMsg i n p) ::
      processLogs fs n (i + 1) rest

/-- Hexadecimal digit for `\u00XX` escapes. -/
def hexDigit (n : Nat) : Char := "0123456789abcdef".toList.getD n '0'

/-- `json.dump` string escaping with `ensure_ascii=False`: quote and
backslash are escaped, the common control characters use their short
escapes, other control characters use `\u00XX`, and everything else
(non-ASCII included) is emitted literally. -/
def jsonEscapeChar (c : Char) : List Char :=
  if c = '"' then ['\\', '"']
  else if c = '\\' then ['\\', '\\']
  else if c = '\n' then ['\\', 'n']
  else if c = '\t' then ['\\', 't']
  else if c = '\r' then ['\\', 'r']
  else if c.toNat = 8 then ['\\', 'b']
  else if c.toNat = 12 then ['\\', 'f']
  else if c.toNat < 0x20 then
    ['\\', 'u', '0', '0', hexDigit (c.toNat / 16), hexDigit (c.toNat % 16)]
  else [c]

/-- A JSON string literal for `s`. -/
def jsonQuote (s : String) : String :=
  "\"" ++ String.mk (s.toList.map jsonEscapeChar).flatten ++ "\""

/-- One record as `json.dump` with `indent=2` prints it inside the
top-level array. -/
def serializeRecord (r : FileRecord) : String :=
  "\x7b\n    \"path\": " ++ jsonQuote r.path ++ ",\n    \"content\": " ++
    jsonQuote r.content ++ "\n  \x7d"

/-- The full output document: `json.dump(files_data, f, indent=2,
ensure_ascii=False)` on the record list. -/
def serializeArray : List FileRecord → String
  | [] => "[]"
  | r :: rs =>
    "[\n  " ++ String.intercalate ",\n  " ((r :: rs).map serializeRecord) ++
      "\n]"

/-- The bytes written to the output file as a function of the
filesystem snapshot and the enumeration result. -/
def jsonOutput (fs : FS) (files : List String) : String :=
  serializeArray (processFiles fs files)

/-- A small concrete filesystem used to instantiate the theorems:
a text file, a binary file, an empty file, a text file with a CR LF
line ending, and a file that exists but cannot be opened. -/
def sampleFS : FS where
  exists_ := fun p =>
    p == "a.txt" || p == "b.bin" || p == "empty.txt" || p == "crlf.txt" ||
      p == "locked.bin"
  open_ := fun p =>
    if p == "a.txt" then .ok [104, 101, 108, 108, 111]
    else if p == "b.bin" then .ok [0, 1]
    else if p == "empty.txt" then .ok []
    else if p == "crlf.txt" then .ok [97, 13, 10, 98]
    else .error (if p == "locked.bin" then "Permission denied"
                 else "No such file or directory")

/-- `sampleFS` with an extra file added at a path the runs below never
enumerate; used to instantiate the determinism theorem. -/
def sampleFS2 : FS where
  exists_ := fun p => p == "a.txt" || p == "b.bin" || p == "other.txt"
  open_ := fun p =>
    if p == "a.txt" then .ok [104, 101, 108, 108, 111]
    else if p == "b.bin" then .ok [0, 1]
    else if p == "other.txt" then .ok [120]
    else .error "No such file or directory"

/-- The bytes of a genuine text file whose decoded content imitates the
binary marker line followed by the base64 encoding of a single null
byte. -/
def mimicBytes : List Nat :=
  "[BINARY FILE - BASE64 ENCODED]\nAA==".toList.map Char.toNat

/-- A filesystem holding that text file next to a one-null-byte binary
file; the reader maps both to the same string. -/
def fsMimic : FS where
  exists_ := fun p => p == "mimic.txt" || p == "null.bin"
  open_ := fun p =>
    if p == "mimic.txt" then .ok mimicBytes
    else if p == "null.bin" then .ok [0]
    else .error "No such file or directory"

/-! ### Helper lemmas -/

theorem char_toNat_ofNat_of_valid (n : Nat) (h : n.isValidChar) :
    (Char.ofNat n).toNat = n := by
  simp [Char.ofNat, h, Char.ofNatAux, Char.toNat, UInt32.toNat,
    BitVec.toNat_ofNatLt]

theorem char_toNat_ofNat_of_invalid (n : Nat) (h : ¬ n.isValidChar) :
    (Char.ofNat n).toNat = 0 := by
  simp [Char.ofNat, h, Char.toNat, UInt32.toNat, BitVec.toNat_ofNatLt]

theorem charOfNat_ne_cr (n : Nat) (h : n ≠ 13) : Char.ofNat n ≠ '\r' := by
  intro heq
  have h13 : (Char.ofNat n).toNat = 13 := by rw [heq]; rfl
  by_cases hv : n.isValidChar
  · rw [char_toNat_ofNat_of_valid n hv] at h13; exact h h13
  · rw [char_toNat_ofNat_of_invalid n hv] at h13; omega

theorem utf8SecondOk_range (b b2 : Nat) (h : utf8SecondOk b b2 = true) :
    (0x80 ≤ b2 ∧ b2 < 0xC0) ∧ (b = 0xE0 → 0xA0 ≤ b2) ∧
      (b = 0xF0 → 0x90 ≤ b2) := by
  unfold utf8SecondOk at h
  split_ifs at h <;> simp only [decide_eq_true_eq] at h <;> omega

theorem utf8Step_fst_ne_cr (b : Nat) (rest : List Nat) (hb : b ≠ 13) :
    (utf8Step b rest).1 ≠ '\r' := by
  have hrepl : replChar ≠ '\r' := by decide
  rcases rest with _ | ⟨b2, _ | ⟨b3, _ | ⟨b4, rest4⟩⟩⟩ <;>
    simp only [utf8Step] <;>
    split_ifs <;>
    first
    | exact hrepl
    | exact charOfNat_ne_cr b hb
    | (apply charOfNat_ne_cr
       first
       | omega
       | (have hok : utf8SecondOk b b2 = true := by assumption
          rcases utf8SecondOk_range b b2 hok with ⟨hlo, he0, hf0⟩
          by_cases he : b = 0xE0
          · have := he0 he; omega
          · by_cases hf : b = 0xF0
            · have := hf0 hf; omega
            · omega))

theorem decodeUtf8ReplaceAux_irrel :
    ∀ (fuel1 fuel2 : Nat) (l : List Nat), l.length ≤ fuel1 →
      l.length ≤ fuel2 →
      decodeUtf8ReplaceAux fuel1 l = decodeUtf8ReplaceAux fuel2 l
  | 0, fuel2, l, h1, _ => by
    have hl : l = [] := by
      cases l with
      | nil => rfl
      | cons x xs => simp at h1
    subst hl; cases fuel2 <;> rfl
  | fuel1 + 1, fuel2, [], _, _ => by cases fuel2 <;> rfl
  | fuel1 + 1, fuel2, b :: rest, h1, h2 => by
    match fuel2, h2 with
    | fuel2 + 1, h2 =>
      simp only [decodeUtf8ReplaceAux]
      congr 1
      apply decodeUtf8ReplaceAux_irrel
      · simp only [List.length_drop]
        simp only [List.length_cons] at h1
        omega
      · simp only [List.length_drop]
        simp only [List.length_cons] at h2
        omega

theorem decodeUtf8Replace_cons (b : Nat) (rest : List Nat) :
    decodeUtf8Replace (b :: rest) =
      (utf8Step b rest).1 ::
        decodeUtf8Replace (rest.drop (utf8Step b rest).2) := by
  unfold decodeUtf8Replace
  simp only [List.length_cons, decodeUtf8ReplaceAux]
  congr 1
  apply decodeUtf8ReplaceAux_irrel <;> simp only [List.length_drop] <;> omega

theorem decode_no_cr :
    ∀ (l : List Nat), (13 : Nat) ∉ l → '\r' ∉ decodeUtf8Replace l
  | [], _ => by
    intro hmem
    simp [decodeUtf8Replace, decodeUtf8ReplaceAux] at hmem
  | b :: rest, h13 => by
    rw [decodeUtf8Replace_cons]
    intro hmem
    rcases List.mem_cons.mp hmem with heq | hmem2
    · exact utf8Step_fst_ne_cr b rest
        (fun hb => h13 (by simp [hb])) heq.symm
    · have hsub : (13 : Nat) ∉ rest.drop (utf8Step b rest).2 :=
        fun hm =>
          h13 (List.mem_cons_of_mem _ ((List.drop_sublist _ _).subset hm))
      exact decode_no_cr (rest.drop (utf8Step b rest).2) hsub hmem2
termination_by l => l.length
decreasing_by
  simp only [List.length_cons, List.length_drop]
  omega

theorem universalNewlines_id :
    ∀ (l : List Char), '\r' ∉ l → universalNewlines l = l
  | [], _ => rfl
  | [c], h => by
    have hc : c ≠ '\r' := fun e => h (by simp [e])
    simp [universalNewlines, hc]
  | c :: c2 :: rest, h => by
    have hc : c ≠ '\r' := fun e => h (by simp [e])
    have hrec := universalNewlines_id (c2 :: rest)
      (fun hm => h (List.mem_cons_of_mem _ hm))
    simp only [universalNewlines, if_neg hc]
    rw [hrec]

theorem processFiles_eq (fs : FS) :
    ∀ (files : List String),
      processFiles fs files =
        (files.filter (fun q => fs.exists_ q)).map
          (fun q => { path := q, content := read_file_content fs q })
  | [] => rfl
  | p :: rest => by
    by_cases h : fs.exists_ p = true
    · simp only [processFiles, List.filter_cons, h, if_pos, List.map_cons]
      rw [processFiles_eq fs rest]
    · simp only [processFiles, List.filter_cons, h]
      simp only [Bool.false_eq_true, if_false, if_neg h]
      rw [processFiles_eq fs rest]

theorem length_filter_not_aux {α : Type} (p : α → Bool) :
    ∀ (l : List α),
      (l.filter p).length + (l.filter (fun x => ! p x)).length = l.length
  | [] => rfl
  | x :: rest => by
    have ih := length_filter_not_aux p rest
    by_cases h : p x = true
    · simp [List.filter_cons, h, ih]
      omega
    · simp only [Bool.not_eq_true] at h
      simp [List.filter_cons, h, ih]
      omega

theorem read_file_content_congr (fs1 fs2 : FS) (p : String)
    (h : fs1.open_ p = fs2.open_ p) :
    read_file_content fs1 p = read_file_content fs2 p := by
  unfold read_file_content is_binary_file
  rw [h]

/-- C1 counterexample: when the invocation of the listing command
itself fails (the embedding's `raised` outcome, e.g. the `git`
executable is missing), `get_git_files` propagates the exception
rather than returning an empty sequence: the source checks
`returncode` but wraps the `subprocess.run` call in no try/except. -/
theorem get_git_files_raised_counterexample :
    get_git_files (SubprocessOutcome.raised "No such file or directory") =
      Except.error "No such file or directory" ∧
    get_git_files (SubprocessOutcome.raised "No such file or directory") ≠
      Except.ok [] := by
  refine ⟨rfl, ?_⟩
  intro h
  simp [get_git_files] at h

/-- C1 (amended): whenever the version-control listing command runs and
exits with nonzero status, the Enumerator returns an empty sequence and
propagates no exception; when the invocation itself fails, the raised
exception propagates to the caller. -/
theorem get_git_files_amended (rc : Int) (out msg : String) :
    (rc ≠ 0 →
      get_git_files (SubprocessOutcome.completed rc out) = Except.ok []) ∧
    get_git_files (SubprocessOutcome.raised msg) = Except.error msg := by
  constructor
  · intro h
    simp [get_git_files, h]
  · rfl

/-- C1 witness: exit status 128 yields the empty list. -/
theorem get_git_files_amended_witness :
    get_git_files
        (SubprocessOutcome.completed 128 "fatal: not a git repository") =
      Except.ok [] :=
  (get_git_files_amended 128 "fatal: not a git repository" "m").1
    (by decide)

/-- C2: the Classifier reports binary exactly when the first 1024 bytes
contain a null byte; a failed open classifies as binary; and the
verdict depends on nothing beyond that 1024-byte window. -/
theorem is_binary_file_window (fs : FS) (p : String) :
    (∀ e, fs.open_ p = Except.error e → is_binary_file fs p = true) ∧
    (∀ bytes, fs.open_ p = Except.ok bytes →
      (is_binary_file fs p = true ↔ (0 : Nat) ∈ bytes.take 1024)) ∧
    (∀ (fs2 : FS) (bytes bytes2 : List Nat),
      fs.open_ p = Except.ok bytes → fs2.open_ p = Except.ok bytes2 →
      bytes.take 1024 = bytes2.take 1024 →
      is_binary_file fs p = is_binary_file fs2 p) := by
  refine ⟨?_, ?_, ?_⟩
  · intro e he
    simp [is_binary_file, he]
  · intro bytes hb
    simp [is_binary_file, hb]
  · intro fs2 bytes bytes2 h1 h2 heq
    simp only [is_binary_file, h1, h2]
    rw [heq]

/-- C2 witness: `b.bin` (bytes `00 01`) classifies as binary, and
`a.txt` (ASCII `hello`) classifies as text. -/
theorem is_binary_file_window_witness :
    is_binary_file sampleFS "b.bin" = true ∧
    is_binary_file sampleFS "a.txt" = false := by
  constructor
  · exact ((is_binary_file_window sampleFS "b.bin").2.1 [0, 1]
      rfl).mpr (by decide)
  · have h := (is_binary_file_window sampleFS "a.txt").2.1
      [104, 101, 108, 108, 111] rfl
    rcases hb : is_binary_file sampleFS "a.txt"
    · rfl
    · exact absurd (h.mp hb) (by decide)

theorem b64CharVal_b64Char :
    ∀ v : Fin 64, b64CharVal (b64Char v.val) = some v.val := by decide

theorem b64Char_ne_pad : ∀ v : Fin 64, b64Char v.val ≠ '=' := by decide

theorem b64_roundtrip :
    ∀ (bs : List Nat), (∀ x ∈ bs, x < 256) →
      b64decode (b64encode bs) = some bs
  | [], _ => rfl
  | [a], h => by
    have ha : a < 256 := h a (by simp)
    have h1 := b64CharVal_b64Char ⟨a / 4, by omega⟩
    have h2 := b64CharVal_b64Char ⟨(a % 4) * 16, by omega⟩
    simp only [b64encode, b64decode, h1, h2, if_pos rfl, and_self, if_true]
    have : a / 4 * 4 + a % 4 * 16 / 16 = a := by omega
    rw [this]
  | [a, b], h => by
    have ha : a < 256 := h a (by simp)
    have hb : b < 256 := h b (by simp)
    have h1 := b64CharVal_b64Char ⟨a / 4, by omega⟩
    have h2 := b64CharVal_b64Char ⟨(a % 4) * 16 + b / 16, by omega⟩
    have h3 := b64CharVal_b64Char ⟨(b % 16) * 4, by omega⟩
    have hne := b64Char_ne_pad ⟨(b % 16) * 4, by omega⟩
    simp only [b64encode, b64decode, h1, h2, h3, if_neg hne, if_pos rfl,
      if_true]
    have e1 : a / 4 * 4 + (a % 4 * 16 + b / 16) / 16 = a := by omega
    have e2 : (a % 4 * 16 + b / 16) % 16 * 16 + b % 16 * 4 / 4 = b := by
      omega
    rw [e1, e2]
  | a :: b :: c :: rest, h => by
    have ha : a < 256 := h a (by simp)
    have hb : b < 256 := h b (by simp)
    have hc : c < 256 := h c (by simp)
    have hrest : ∀ x ∈ rest, x < 256 := fun x hx => h x (by simp [hx])
    have h1 := b64CharVal_b64Char ⟨a / 4, by omega⟩
    have h2 := b64CharVal_b64Char ⟨(a % 4) * 16 + b / 16, by omega⟩
    have h3 := b64CharVal_b64Char ⟨(b % 16) * 4 + c / 64, by omega⟩
    have h4 := b64CharVal_b64Char ⟨c % 64, by omega⟩
    have hne3 := b64Char_ne_pad ⟨(b % 16) * 4 + c / 64, by omega⟩
    have hne4 := b64Char_ne_pad ⟨c % 64, by omega⟩
    have ih := b64_roundtrip rest hrest
    simp only [b64encode, b64decode, h1, h2, h3, h4, if_neg hne3,
      if_neg hne4, ih]
    have e1 : a / 4 * 4 + (a % 4 * 16 + b / 16) / 16 = a := by omega
    have e2 : (a % 4 * 16 + b / 16) % 16 * 16 +
        (b % 16 * 4 + c / 64) / 4 = b := by omega
    have e3 : (b % 16 * 4 + c / 64) % 4 * 64 + c % 64 = c := by omega
    rw [e1, e2, e3]

/-- C3: for a file that opens successfully and is classified binary,
the Reader returns exactly the marker line, a newline, and the base64
encoding of the file's bytes, and base64-decoding that payload
recovers the bytes exactly. -/
theorem binary_reader_roundtrip (fs : FS) (p : String) (bytes : List Nat)
    (hopen : fs.open_ p = Except.ok bytes)
    (hbin : is_binary_file fs p = true)
    (hbytes : ∀ x ∈ bytes, x < 256) :
    read_file_content fs p =
      "[BINARY FILE - BASE64 ENCODED]\n" ++ String.mk (b64encode bytes) ∧
    b64decode (String.mk (b64encode bytes)).toList = some bytes := by
  constructor
  · simp [read_file_content, hbin, hopen]
  · have hl : (String.mk (b64encode bytes)).toList = b64encode bytes := rfl
    rw [hl]
    exact b64_roundtrip bytes hbytes

/-- C3 witness: `b.bin` (bytes `00 01`) round-trips through the marker
format and base64. -/
theorem binary_reader_roundtrip_witness :
    read_file_content sampleFS "b.bin" =
      "[BINARY FILE - BASE64 ENCODED]\n" ++ String.mk (b64encode [0, 1]) ∧
    b64decode (String.mk (b64encode [0, 1])).toList = some [0, 1] :=
  binary_reader_roundtrip sampleFS "b.bin" [0, 1] rfl (by decide)
    (by decide)

/-- C4 counterexample: `crlf.txt` holds the bytes `61 0D 0A 62`
(`"a\r\nb"`), which decode as UTF-8 (with replacement) to
`a`, CR, LF, `b`; yet the Reader returns `"a\nb"`, because the source
opens text files in Python text mode, whose default universal-newlines
setting translates `"\r\n"` (and lone `"\r"`) to `"\n"` on read.  So
the returned string is not the file's content decoded as UTF-8 with
replacement. -/
theorem text_reader_newline_counterexample :
    sampleFS.open_ "crlf.txt" = Except.ok [97, 13, 10, 98] ∧
    is_binary_file sampleFS "crlf.txt" = false ∧
    decodeUtf8Replace [97, 13, 10, 98] = ['a', '\r', '\n', 'b'] ∧
    read_file_content sampleFS "crlf.txt" = "a\nb" ∧
    read_file_content sampleFS "crlf.txt" ≠
      String.mk (decodeUtf8Replace [97, 13, 10, 98]) := by
  refine ⟨rfl, by decide, by decide, by decide, by decide⟩

/-- C4 (amended): for a text-classified file that opens successfully,
the Reader returns the file's bytes decoded as UTF-8 with a
replacement character for malformed sequences, followed by
universal-newline translation (CR LF and lone CR become LF); decoding
is total, and on files containing no CR byte the result is exactly the
UTF-8-with-replacement decoding. -/
theorem text_reader_decodes (fs : FS) (p : String) (bytes : List Nat)
    (hopen : fs.open_ p = Except.ok bytes)
    (htext : is_binary_file fs p = false) :
    read_file_content fs p =
      String.mk (universalNewlines (decodeUtf8Replace bytes)) ∧
    ((13 : Nat) ∉ bytes →
      read_file_content fs p = String.mk (decodeUtf8Replace bytes)) := by
  have h1 : read_file_content fs p =
      String.mk (universalNewlines (decodeUtf8Replace bytes)) := by
    simp [read_file_content, htext, hopen]
  refine ⟨h1, fun h13 => ?_⟩
  rw [h1, universalNewlines_id (decodeUtf8Replace bytes)
    (decode_no_cr bytes h13)]

/-- C4 witness: `a.txt` (ASCII `hello`, no CR byte) comes back as the
plain UTF-8 decoding of its bytes. -/
theorem text_reader_decodes_witness :
    read_file_content sampleFS "a.txt" =
      String.mk (decodeUtf8Replace [104, 101, 108, 108, 111]) :=
  (text_reader_decodes sampleFS "a.txt" [104, 101, 108, 108, 111] rfl
    (by decide)).2 (by decide)

/-- C5: when reading a file raises (the open fails with message `e`),
the Reader returns the literal error placeholder instead of
propagating; and the record loop still yields one record per existing
enumerated path, each built only from its own path, so the batch is
never aborted and other files' records are unaffected. -/
theorem reader_error_placeholder (fs : FS) (p : String) (e : String)
    (h : fs.open_ p = Except.error e) :
    read_file_content fs p = "[ERROR READING FILE: " ++ e ++ "]" ∧
    ∀ files, processFiles fs files =
      (files.filter (fun q => fs.exists_ q)).map
        (fun q => { path := q, content := read_file_content fs q }) := by
  constructor
  · simp [read_file_content, is_binary_file, h]
  · exact processFiles_eq fs

/-- C5 witness: `locked.bin` exists but fails to open with
`Permission denied`; its record carries the placeholder, and the batch
over `[a.txt, locked.bin]` still has a record for both files. -/
theorem reader_error_placeholder_witness :
    read_file_content sampleFS "locked.bin" =
      "[ERROR READING FILE: " ++ "Permission denied" ++ "]" ∧
    (processFiles sampleFS ["a.txt", "locked.bin"]).length = 2 := by
  have h := reader_error_placeholder sampleFS "locked.bin"
    "Permission denied" rfl
  refine ⟨h.1, ?_⟩
  rw [h.2 ["a.txt", "locked.bin"]]
  decide

/-- C9: an empty file that opens successfully classifies as text (its
1024-byte window holds no null byte) and reads back as the empty
string, so any record emitted for it carries content `""`. -/
theorem empty_file_reads_empty (fs : FS) (p : String)
    (h : fs.open_ p = Except.ok []) :
    is_binary_file fs p = false ∧
    read_file_content fs p = "" ∧
    ∀ files r, r ∈ processFiles fs files → r.path = p →
      r.content = "" := by
  have hbin : is_binary_file fs p = false := by
    simp [is_binary_file, h]
  have hread : read_file_content fs p = "" := by
    simp [read_file_content, hbin, h]
    rfl
  refine ⟨hbin, hread, ?_⟩
  intro files r hr hp
  rw [processFiles_eq fs files] at hr
  rcases List.mem_map.mp hr with ⟨q, hq, hrq⟩
  have : r.content = read_file_content fs q := by rw [← hrq]
  rw [this]
  have hqp : q = p := by rw [← hp, ← hrq]
  rw [hqp, hread]

/-- C9 witness: `empty.txt` (zero bytes) classifies as text, reads back
empty, and its record in a concrete run has content `""`. -/
theorem empty_file_reads_empty_witness :
    is_binary_file sampleFS "empty.txt" = false ∧
    read_file_content sampleFS "empty.txt" = "" :=
  ⟨(empty_file_reads_empty sampleFS "empty.txt" rfl).1,
   (empty_file_reads_empty sampleFS "empty.txt" rfl).2.1⟩

theorem processLogs_getElem (fs : FS) (n : Nat) :
    ∀ (files : List String) (start i : Nat) (h : i < files.length),
      (processLogs fs n start files)[i]? =
        some (if fs.exists_ files[i] then addedMsg (start + i) n files[i]
              else skipMsg (start + i) n files[i])
  | p :: rest, start, 0, h => by
    simp [processLogs]
  | p :: rest, start, i + 1, h => by
    have ih := processLogs_getElem fs n rest (start + 1) i
      (by simpa using h)
    simp only [processLogs, List.getElem?_cons_succ,
      List.getElem_cons_succ]
    rw [ih]
    have e : start + 1 + i = start + (i + 1) := by omega
    rw [e]

/-- C6: every emitted record's path passed the existence check; a path
that fails the check contributes no record, only the skip console
line at its position; and the record count is the number of enumerated
paths minus the number of missing ones. -/
theorem main_skip_and_count (fs : FS) (files : List String) :
    (∀ r ∈ processFiles fs files, fs.exists_ r.path = true) ∧
    (processFiles fs files).length =
      files.length -
        (files.filter (fun q => ! fs.exists_ q)).length ∧
    (∀ (i : Nat) (h : i < files.length), fs.exists_ files[i] = false →
      (∀ r ∈ processFiles fs files, r.path ≠ files[i]) ∧
      (processLogs fs files.length 1 files)[i]? =
        some (skipMsg (i + 1) files.length files[i])) := by
  have hmem : ∀ r ∈ processFiles fs files, fs.exists_ r.path = true := by
    intro r hr
    rw [processFiles_eq fs files] at hr
    rcases List.mem_map.mp hr with ⟨q, hq, hrq⟩
    have hqex := List.of_mem_filter hq
    rw [← hrq]
    exact hqex
  refine ⟨hmem, ?_, ?_⟩
  · have h1 : (processFiles fs files).length =
        (files.filter (fun q => fs.exists_ q)).length := by
      rw [processFiles_eq fs files, List.length_map]
    have h2 := length_filter_not_aux (fun q => fs.exists_ q) files
    omega
  · intro i h hex
    constructor
    · intro r hr heq
      have := hmem r hr
      rw [heq, hex] at this
      exact Bool.false_ne_true this
    · rw [processLogs_getElem fs files.length files 1 i h, hex]
      simp only [Bool.false_eq_true, if_false]
      have e : 1 + i = i + 1 := by omega
      rw [e]

/-- C6 witness: over `[a.txt, ghost]` with `ghost` absent, the one
record is for `a.txt`, the count is 2 - 1, and position 2 logs the
skip notice. -/
theorem main_skip_and_count_witness :
    (processFiles sampleFS ["a.txt", "ghost"]).length = 1 ∧
    (processLogs sampleFS 2 1 ["a.txt", "ghost"])[1]? =
      some "[2/2] Skipped (not found): ghost" := by
  have h := main_skip_and_count sampleFS ["a.txt", "ghost"]
  constructor
  · rw [h.2.1]; decide
  · have h2 := (h.2.2 1 (by decide) (by decide)).2
    simpa using h2

/-- C7: the records appear exactly in enumeration order restricted to
the existing paths (no sorting), and an existing path enumerated k
times yields k records. -/
theorem main_order_and_duplicates (fs : FS) (files : List String) :
    (processFiles fs files).map (fun r => r.path) =
      files.filter (fun q => fs.exists_ q) ∧
    (∀ p, fs.exists_ p = true →
      ((processFiles fs files).map (fun r => r.path)).count p =
        files.count p) := by
  have h1 : (processFiles fs files).map (fun r => r.path) =
      files.filter (fun q => fs.exists_ q) := by
    rw [processFiles_eq fs files, List.map_map]
    exact List.map_id _
  refine ⟨h1, fun p hp => ?_⟩
  rw [h1]
  exact List.count_filter hp

/-- C7 witness: enumerating `a.txt` twice yields two records for it, in
order. -/
theorem main_order_and_duplicates_witness :
    (processFiles sampleFS ["a.txt", "a.txt"]).map (fun r => r.path) =
      ["a.txt", "a.txt"] ∧
    ((processFiles sampleFS ["a.txt", "a.txt"]).map
        (fun r => r.path)).count "a.txt" = 2 := by
  have h := main_order_and_duplicates sampleFS ["a.txt", "a.txt"]
  constructor
  · rw [h.1]; decide
  · rw [h.2 "a.txt" (by decide)]; decide

theorem processFiles_congr (fs1 fs2 : FS) :
    ∀ (files : List String),
      (∀ p ∈ files, fs1.exists_ p = fs2.exists_ p ∧
        fs1.open_ p = fs2.open_ p) →
      processFiles fs1 files = processFiles fs2 files
  | [], _ => rfl
  | p :: rest, h => by
    have hp := h p (List.mem_cons_self p rest)
    have ih := processFiles_congr fs1 fs2 rest
      (fun q hq => h q (List.mem_cons_of_mem p hq))
    simp only [processFiles, hp.1, ih,
      read_file_content_congr fs1 fs2 p hp.2]

/-- C8: the serialized JSON document is a function of the enumeration
result and of the filesystem's behavior on the enumerated paths alone;
two runs over filesystems that agree there (in particular, two runs
over one unchanged filesystem) produce byte-identical output. -/
theorem main_output_deterministic (fs1 fs2 : FS) (files : List String)
    (h : ∀ p ∈ files, fs1.exists_ p = fs2.exists_ p ∧
      fs1.open_ p = fs2.open_ p) :
    processFiles fs1 files = processFiles fs2 files ∧
    jsonOutput fs1 files = jsonOutput fs2 files := by
  have hp := processFiles_congr fs1 fs2 files h
  exact ⟨hp, by unfold jsonOutput; rw [hp]⟩

/-- C8 witness: `sampleFS` and `sampleFS2` differ (only) away from
`a.txt` and `b.bin`; both runs over those two paths serialize to the
same bytes. -/
theorem main_output_deterministic_witness :
    jsonOutput sampleFS ["a.txt", "b.bin"] =
      jsonOutput sampleFS2 ["a.txt", "b.bin"] :=
  (main_output_deterministic sampleFS sampleFS2 ["a.txt", "b.bin"]
    (by
      intro p hp
      rcases List.mem_cons.mp hp with h1 | hp2
      · subst h1; exact ⟨rfl, rfl⟩
      · rcases List.mem_cons.mp hp2 with h2 | hp3
        · subst h2; exact ⟨rfl, rfl⟩
        · simp at hp3)).2

/-- C10: the Reader is not injective: `mimic.txt` is a genuine text
file (no null byte) whose decoded content imitates the binary marker
line plus `AA==`, and `null.bin` is the one-null-byte binary file whose
encoding is that same payload; the Reader maps both, with different
bytes on disk, to the same output string. -/
theorem reader_not_injective :
    fsMimic.open_ "mimic.txt" = Except.ok mimicBytes ∧
    fsMimic.open_ "null.bin" = Except.ok [0] ∧
    mimicBytes ≠ [0] ∧
    is_binary_file fsMimic "mimic.txt" = false ∧
    is_binary_file fsMimic "null.bin" = true ∧
    read_file_content fsMimic "mimic.txt" =
      read_file_content fsMimic "null.bin" ∧
    read_file_content fsMimic "null.bin" =
      "[BINARY FILE - BASE64 ENCODED]\nAA==" := by
  refine ⟨rfl, rfl, by decide, by decide, by decide, by decide, by decide⟩
